import Mathlib

/-!
Verification development for the youtudown desktop downloader core
(`src-tauri/src/commands.rs`).

The pure logic of the Rust source is shallowly embedded below:
  * `format_ytdlp_error` — the error classifier;
  * `parse_video_info` / `parse_formats` — JSON-record parsing with defaults;
  * `extract_available_resolutions` — the resolution-deduplication heuristic;
  * `parse_progress_line` — the progress-line scanner;
  * `get_video_info_core` — the stdout-line selection logic of `get_video_info`
    (process spawning and stream capture are I/O and stay outside the model;
    `serde_json::from_str` is an external library and is passed in as an
    abstract parameter).

Machine integers: the Rust `i64` fields (`height`, `width`, `filesize`) are
modelled as `Int`; the source only ever compares them for equality and order,
never performs arithmetic on them, so no wrap-around modelling is needed.
Rust `f64` values (`duration`, the progress percent) are modelled as `ℚ`; the
source never does float arithmetic on them — they are parsed and passed
through — so only parse success/failure and the parsed value matter.
-/

/-! ## String utilities

Rust `str::contains` with a string pattern is substring containment, and with
a char pattern is character containment; both are modelled through `occursIn`
on the underlying character lists.  `splitWhitespace` models Rust
`split_whitespace` (split on whitespace, dropping empty tokens); Lean's
`Char.isWhitespace` covers the ASCII whitespace used by every claim. -/

def occursIn (s pat : List Char) : Bool :=
  match s with
  | [] => pat.isEmpty
  | _ :: t => pat.isPrefixOf s || occursIn t pat

def strContains (s pat : String) : Bool :=
  occursIn s.data pat.data

def splitWsAux : List Char → List Char → List String
  | [], acc => if acc = [] then [] else [(⟨acc.reverse⟩ : String)]
  | c :: rest, acc =>
    if c.isWhitespace then
      (if acc = [] then [] else [(⟨acc.reverse⟩ : String)]) ++ splitWsAux rest []
    else splitWsAux rest (c :: acc)

def splitWhitespace (s : String) : List String :=
  splitWsAux s.data []

/-! ## Data model (`commands.rs` lines 20–52) -/

structure VideoFormat where
  format_id : String
  height : Option Int
  width : Option Int
  ext : String
  filesize : Option Int
  vcodec : Option String
  acodec : Option String
deriving DecidableEq, Repr

structure ResolutionOption where
  height : Int
  label : String
  format_id : String
deriving DecidableEq, Repr

structure VideoInfo where
  id : String
  title : String
  duration : ℚ
  thumbnail : String
  formats : List VideoFormat
  available_resolutions : List ResolutionOption
deriving Repr

structure ProgressSnapshot where
  percent : ℚ
  speed : String
  eta : String
deriving DecidableEq, Repr

/-! ## Error classifier (`format_ytdlp_error`, lines 150–198)

Each remediation block is the Rust format-string tail; the `\`-newline
continuations in the Rust literals swallow the newline and the leading
indentation of the following line. -/

def botRemediation : String :=
  "\n\n🔧 解决方案:\n1. 确保您的 Chrome 浏览器已登录 YouTube\n2. 尝试使用不同的视频链接\n3. 在高级设置中调整反检测选项\n4. 如果问题持续，请等待一段时间后重试"

def rateLimitRemediation : String :=
  "\n\n🔧 解决方案:\n1. 在高级设置中增加请求间隔时间\n2. 等待几分钟后重试\n3. 尝试使用代理连接"

def cookieRemediation : String :=
  "\n\n🔧 解决方案:\n1. 确保浏览器中已登录相应账号\n2. 检查浏览器 Cookie 权限\n3. 尝试手动导出 Cookie 文件"

def impersonateRemediation : String :=
  "\n\n🔧 解决方案:\n1. 请运行: /opt/homebrew/bin/python3.10 -m pip install curl_cffi\n2. 或重新安装: /opt/homebrew/bin/python3.10 -m pip install --upgrade 'yt-dlp[curl-cffi]'\n3. 详细说明请参考项目文档"

def youtubeRemediation : String :=
  "\n\n🔧 解决方案:\n1. 检查视频链接是否正确\n2. 尝试刷新网页获取最新链接\n3. 视频可能受地区限制或已被删除"

def format_ytdlp_error (stderr : String) : String :=
  let base_error := "yt-dlp 执行失败: " ++ stderr
  if strContains stderr "Sign in to confirm you're not a bot" then
    base_error ++ botRemediation
  else if strContains stderr "429" || strContains stderr "Too Many Requests" then
    base_error ++ rateLimitRemediation
  else if strContains stderr "cookies" || strContains stderr "login" then
    base_error ++ cookieRemediation
  else if strContains stderr "Impersonate target" && strContains stderr "not available" then
    base_error ++ impersonateRemediation
  else if strContains stderr "ERROR: [youtube]" then
    base_error ++ youtubeRemediation
  else
    base_error

/-- Spec-side selector: the remediation block chosen by the first matching
known condition, in the fixed priority order of §4.2, or empty when none
matches.  Used to state the amended shape of `format_ytdlp_error`. -/
def remediationSuffix (stderr : String) : String :=
  if strContains stderr "Sign in to confirm you're not a bot" then botRemediation
  else if strContains stderr "429" || strContains stderr "Too Many Requests" then
    rateLimitRemediation
  else if strContains stderr "cookies" || strContains stderr "login" then cookieRemediation
  else if strContains stderr "Impersonate target" && strContains stderr "not available" then
    impersonateRemediation
  else if strContains stderr "ERROR: [youtube]" then youtubeRemediation
  else ""

/-! ## JSON values (external `serde_json::Value` contract)

Only the shape needed by `parse_video_info` is modelled.  Numbers are `ℚ`
(`as_f64` yields the value; `as_i64` succeeds only on integral values inside
the `i64` range, mirroring serde's behaviour on integer-backed numbers; the
float-backed/integer-backed storage distinction of serde is not observable
through the fields the source reads). -/

inductive Json where
  | null
  | bool (b : Bool)
  | num (q : ℚ)
  | str (s : String)
  | arr (items : List Json)
  | obj (fields : List (String × Json))

/-- `Value::index` with a string key: missing keys and non-objects give
`Null` (serde_json's `Index` impl for `Value`). -/
def Json.getKey (j : Json) (k : String) : Json :=
  match j with
  | .obj fields =>
    match fields.find? (fun p => p.1 == k) with
    | some p => p.2
    | none => .null
  | _ => .null

def Json.asStr : Json → Option String
  | .str s => some s
  | _ => none

def Json.asF64 : Json → Option ℚ
  | .num q => some q
  | _ => none

def Json.asI64 : Json → Option Int
  | .num q => if q.den = 1 ∧ -(2 ^ 63) ≤ q.num ∧ q.num < 2 ^ 63 then some q.num else none
  | _ => none

def Json.asArr : Json → Option (List Json)
  | .arr items => some items
  | _ => none

def Json.asObj : Json → Option (List (String × Json))
  | .obj fields => some fields
  | _ => none

/-- `serde_json::Map` indexing (used in the single-`format` branch of
`parse_formats`): unlike `Value` indexing it has no `Null` fallback — a
missing key panics.  `none` here therefore models a Rust panic. -/
def mapIndex (fields : List (String × Json)) (k : String) : Option Json :=
  (fields.find? (fun p => p.1 == k)).map (fun p => p.2)

/-! ## Metadata parsing (`parse_video_info` / `parse_formats`, lines 260–350) -/

/-- One element of the `formats` array (`commands.rs` lines 297–325); here the
Rust code indexes a `Value`, so every missing field falls back to a default
(`"unknown"` for the strings, `None` for the optional fields). -/
def parseFormatEntry (v : Json) : VideoFormat :=
  { format_id := ((v.getKey "format_id").asStr).getD "unknown"
    height := (v.getKey "height").asI64
    width := (v.getKey "width").asI64
    ext := ((v.getKey "ext").asStr).getD "unknown"
    filesize := (v.getKey "filesize").asI64
    vcodec := (v.getKey "vcodec").asStr
    acodec := (v.getKey "acodec").asStr }

/-- `parse_formats` (lines 293–350).  The single-`format` fallback branch
indexes a `serde_json::Map` directly, which panics when the key is absent;
`none` models that panic.  The happy paths return `some`. -/
def parse_formats (json : Json) : Option (List VideoFormat) :=
  match (json.getKey "formats").asArr with
  | some formatArray => some (formatArray.map parseFormatEntry)
  | none =>
    match (json.getKey "format").asObj with
    | some fields =>
      match mapIndex fields "format_id", mapIndex fields "ext", mapIndex fields "filesize" with
      | some fid, some extVal, some fsz =>
        some [{ format_id := (fid.asStr).getD "unknown"
                height := none
                width := none
                ext := (extVal.asStr).getD "unknown"
                filesize := fsz.asI64
                vcodec := none
                acodec := none }]
      | _, _, _ => none
    | none => some []

/-! ## Resolution deduplication (`extract_available_resolutions`, lines 359–410)

The Rust code accumulates a `HashMap<i64, ResolutionOption>` keyed by height
and finally sorts the values by descending height.  The map is modelled as an
insertion-ordered association list with pairwise-distinct keys; since the keys
are distinct, the strictly-descending sorted output is the same list for every
iteration order of the hash map and for every correct sorting algorithm, so
the model below (association list + `List.insertionSort`) is exact. -/

abbrev ResMap := List (Int × ResolutionOption)

def lookupEntry : ResMap → Int → Option ResolutionOption
  | [], _ => none
  | (k, v) :: rest, h => if k = h then some v else lookupEntry rest h

/-- `resolutions.entry(h).or_insert(d)` followed by the in-place mutation
`u` of the entry (the mutation also applies to a freshly inserted default,
exactly as in the Rust code). -/
def insertOrUpdate : ResMap → Int → ResolutionOption → (ResolutionOption → ResolutionOption) → ResMap
  | [], h, d, u => [(h, u d)]
  | (k, v) :: rest, h, d, u =>
    if k = h then (k, u v) :: rest else (k, v) :: insertOrUpdate rest h d u

/-- The skip condition of lines 377–380:
`format.vcodec.as_ref().map_or(true, |vcodec| vcodec == "none")`. -/
def vcodecSkipped (f : VideoFormat) : Bool :=
  match f.vcodec with
  | none => true
  | some v => v == "none"

/-- The `resolution_labels` table (lines 363–374) with the `"{height}p"`
fallback of line 388. -/
def resolutionLabel (h : Int) : String :=
  if h = 4320 then "8K"
  else if h = 2880 then "5K"
  else if h = 2160 then "4K"
  else if h = 1440 then "2K"
  else if h = 1080 then "1080p"
  else if h = 720 then "720p"
  else if h = 480 then "480p"
  else if h = 360 then "360p"
  else if h = 240 then "240p"
  else if h = 144 then "144p"
  else toString h ++ "p"

/-- The conditional representative replacement of lines 398–401: the entry's
`format_id` is replaced by the current format's id when the current format
has a known file size and some format in the whole list shares the entry's
current id while lacking a file size. -/
def preferFilesize (allFormats : List VideoFormat) (f : VideoFormat)
    (entry : ResolutionOption) : ResolutionOption :=
  if f.filesize.isSome &&
      allFormats.any (fun g => g.format_id == entry.format_id && g.filesize.isNone) then
    { entry with format_id := f.format_id }
  else
    entry

/-- One iteration of the `for format in formats` loop (lines 376–403). -/
def processFormat (allFormats : List VideoFormat) (m : ResMap) (f : VideoFormat) : ResMap :=
  if vcodecSkipped f then m
  else
    match f.height with
    | none => m
    | some h =>
      insertOrUpdate m h ⟨h, resolutionLabel h, f.format_id⟩ (preferFilesize allFormats f)

def buildResolutions (allFormats : List VideoFormat) : List VideoFormat → ResMap → ResMap
  | [], m => m
  | f :: rest, m => buildResolutions allFormats rest (processFormat allFormats m f)

def extract_available_resolutions (formats : List VideoFormat) : List ResolutionOption :=
  let m := buildResolutions formats formats []
  List.insertionSort (fun a b => b.height ≤ a.height) (m.map Prod.snd)

/-- `parse_video_info` (lines 260–291).  The Rust function returns
`Result<VideoInfo, String>` but only ever builds `Ok`; the outer `Option`
models the panic that the single-`format` branch of `parse_formats` can
raise (`none` = panic). -/
def parse_video_info (json : Json) : Option (Except String VideoInfo) :=
  match parse_formats json with
  | none => none
  | some formats =>
    some (Except.ok
      { id := ((json.getKey "id").asStr).getD "unknown"
        title := ((json.getKey "title").asStr).getD "无标题"
        duration := ((json.getKey "duration").asF64).getD 0
        thumbnail := ((json.getKey "thumbnail").asStr).getD ""
        formats := formats
        available_resolutions := extract_available_resolutions formats })

/-! ## Output-line selection of `get_video_info` (lines 239–253)

Everything up to the capture of stdout is process I/O; the model starts from
the captured list of stdout lines.  `serde_json::from_str::<Value>` is an
external library function and is passed in abstractly. -/

def firstJson (parseJson : String → Option Json) : List String → Option Json
  | [] => none
  | l :: rest =>
    match parseJson l with
    | some j => some j
    | none => firstJson parseJson rest

def get_video_info_core (parseJson : String → Option Json) (lines : List String) :
    Option (Except String VideoInfo) :=
  if lines = [] then some (Except.error "无法获取视频信息: 无响应数据")
  else
    match firstJson parseJson lines with
    | some j => parse_video_info j
    | none => some (Except.error "无法解析视频信息")

/-! ## Progress-line parsing (`parse_progress_line`, lines 510–577) -/

/-- `trim_end_matches('%')`: drop every trailing `'%'`. -/
def trimEndPercent (s : String) : String :=
  ⟨(s.data.reverse.dropWhile (fun c => c = '%')).reverse⟩

def digitsToNat (cs : List Char) : Nat :=
  cs.foldl (fun n c => 10 * n + (c.toNat - 48)) 0

/-- Exponent tail of a float literal: optional sign, at least one digit. -/
def parseExpTail (cs : List Char) : Option Int :=
  match cs with
  | '+' :: t => if t ≠ [] ∧ t.all Char.isDigit then some (digitsToNat t : Int) else none
  | '-' :: t => if t ≠ [] ∧ t.all Char.isDigit then some (-(digitsToNat t : Int)) else none
  | t => if t ≠ [] ∧ t.all Char.isDigit then some (digitsToNat t : Int) else none

/-- The rational value `sign · (intPart.fracPart) · 10^ex`, built with
`mkRat` on an integer numerator and a power-of-ten denominator (the same
value as the field expression, stated in a kernel-computable form). -/
def sciToRat (sign : Int) (intPart fracPart : List Char) (ex : Int) : ℚ :=
  let num : Int := sign * Int.ofNat (digitsToNat intPart * 10 ^ fracPart.length + digitsToNat fracPart)
  if 0 ≤ ex then mkRat (num * (10 : Int) ^ ex.toNat) (10 ^ fracPart.length)
  else mkRat num (10 ^ fracPart.length * 10 ^ (-ex).toNat)

/-- Rust `f64::from_str` on finite decimal/scientific literals: optional
sign, then `digits`, `digits.digits`, `.digits` or `digits.` with an optional
`e`/`E` exponent.  The non-finite literals (`inf`, `infinity`, `nan`) are not
modelled; no claim involves them. -/
def parseF64 (s : String) : Option ℚ :=
  let withSign : List Char → Int → Option ℚ := fun cs sign =>
    let intPart := cs.takeWhile Char.isDigit
    let afterInt := cs.dropWhile Char.isDigit
    match afterInt with
    | [] => if intPart = [] then none else some (sciToRat sign intPart [] 0)
    | '.' :: afterDot =>
      let fracPart := afterDot.takeWhile Char.isDigit
      let afterFrac := afterDot.dropWhile Char.isDigit
      if intPart = [] ∧ fracPart = [] then none
      else
        match afterFrac with
        | [] => some (sciToRat sign intPart fracPart 0)
        | e :: expTail =>
          if e = 'e' ∨ e = 'E' then (parseExpTail expTail).map (sciToRat sign intPart fracPart)
          else none
    | e :: expTail =>
      if (e = 'e' ∨ e = 'E') ∧ intPart ≠ [] then
        (parseExpTail expTail).map (sciToRat sign intPart [])
      else none
  match s.data with
  | '+' :: t => withSign t 1
  | '-' :: t => withSign t (-1)
  | t => withSign t 1

/-- The percent scan (lines 521–529): first token containing `'%'` whose
text, with trailing `'%'`s stripped, parses as a float; tokens whose parse
fails are skipped and the scan continues. -/
def findPercent : List String → Option ℚ
  | [] => none
  | p :: rest =>
    if strContains p "%" then
      match parseF64 (trimEndPercent p) with
      | some v => some v
      | none => findPercent rest
    else findPercent rest

/-- The throughput-unit test of line 549. -/
def containsUnit (p : String) : Bool :=
  strContains p "MiB/s" || strContains p "KiB/s" || strContains p "MB/s" || strContains p "KB/s"

/-- The speed taken once an `"at"` token with a successor is found (lines
537–545): the following token, with the one after that appended (separated
by a space) when it contains `"/s"`. -/
def speedAfterAt : List String → String
  | next :: n2 :: _ => if strContains n2 "/s" then next ++ " " ++ n2 else next
  | [next] => next
  | [] => ""

/-- The speed scan (lines 534–553): a single left-to-right pass; at each
token, an `"at"` with a successor wins first, else a token containing a
known throughput unit wins; the first trigger stops the scan. -/
def findSpeed : List String → String
  | [] => ""
  | p :: rest =>
    if p = "at" ∧ rest ≠ [] then speedAfterAt rest
    else if containsUnit p then p
    else findSpeed rest

/-- The ETA scan (lines 556–567): at each token, an `"ETA"` with a successor
wins first, else a token containing exactly two `':'` wins. -/
def findEta : List String → String
  | [] => ""
  | p :: rest =>
    if p = "ETA" ∧ rest ≠ [] then rest.headD ""
    else if p.data.count ':' = 2 then p
    else findEta rest

def parse_progress_line (line : String) : Option ProgressSnapshot :=
  if !strContains line "[download]" && !strContains line "%" then none
  else
    let parts := splitWhitespace line
    match findPercent parts with
    | none => none
    | some percent => some ⟨percent, findSpeed parts, findEta parts⟩

/-! ## Helper lemmas about the resolution map -/

theorem lookupEntry_insertOrUpdate_self (m : ResMap) (h : Int) (d : ResolutionOption)
    (u : ResolutionOption → ResolutionOption) :
    lookupEntry (insertOrUpdate m h d u) h = some (u ((lookupEntry m h).getD d)) := by
  induction m with
  | nil => simp [insertOrUpdate, lookupEntry]
  | cons p rest ih =>
    obtain ⟨k, v⟩ := p
    by_cases hk : k = h
    · simp [insertOrUpdate, hk, lookupEntry]
    · simp [insertOrUpdate, hk, lookupEntry, ih]

theorem lookupEntry_insertOrUpdate_ne (m : ResMap) (h h' : Int) (d : ResolutionOption)
    (u : ResolutionOption → ResolutionOption) (hne : h' ≠ h) :
    lookupEntry (insertOrUpdate m h d u) h' = lookupEntry m h' := by
  have hne' : ¬(h = h') := fun e => hne e.symm
  induction m with
  | nil => simp [insertOrUpdate, lookupEntry, hne']
  | cons p rest ih =>
    obtain ⟨k, v⟩ := p
    by_cases hk : k = h
    · have hk' : ¬(k = h') := by rw [hk]; exact hne'
      simp [insertOrUpdate, hk, lookupEntry, hk', hne']
    · by_cases hk' : k = h'
      · simp [insertOrUpdate, hk, lookupEntry, hk', hne]
      · simp [insertOrUpdate, hk, lookupEntry, hk', ih]

theorem mem_insertOrUpdate {m : ResMap} {h : Int} {d : ResolutionOption}
    {u : ResolutionOption → ResolutionOption} {p : Int × ResolutionOption}
    (hp : p ∈ insertOrUpdate m h d u) :
    p ∈ m ∨ (p.1 = h ∧ (p.2 = u d ∨ ∃ v, (h, v) ∈ m ∧ p.2 = u v)) := by
  induction m with
  | nil =>
    simp only [insertOrUpdate, List.mem_singleton] at hp
    exact Or.inr ⟨by rw [hp], Or.inl (by rw [hp])⟩
  | cons q rest ih =>
    obtain ⟨k, v⟩ := q
    by_cases hk : k = h
    · simp only [insertOrUpdate, if_pos hk, List.mem_cons] at hp
      rcases hp with hp | hp
      · exact Or.inr ⟨by rw [hp, hk], Or.inr ⟨v, by rw [← hk]; exact List.mem_cons_self _ _,
          by rw [hp]⟩⟩
      · exact Or.inl (List.mem_cons_of_mem _ hp)
    · simp only [insertOrUpdate, if_neg hk, List.mem_cons] at hp
      rcases hp with hp | hp
      · exact Or.inl (by rw [hp]; exact List.mem_cons_self _ _)
      · rcases ih hp with h1 | ⟨h1, h2⟩
        · exact Or.inl (List.mem_cons_of_mem _ h1)
        · refine Or.inr ⟨h1, ?_⟩
          rcases h2 with h2 | ⟨w, hw, h2⟩
          · exact Or.inl h2
          · exact Or.inr ⟨w, List.mem_cons_of_mem _ hw, h2⟩

theorem pairwiseKeys_insertOrUpdate {m : ResMap} (hm : m.Pairwise (fun p q => p.1 ≠ q.1))
    (h : Int) (d : ResolutionOption) (u : ResolutionOption → ResolutionOption) :
    (insertOrUpdate m h d u).Pairwise (fun p q => p.1 ≠ q.1) := by
  induction m with
  | nil => simp [insertOrUpdate]
  | cons q rest ih =>
    obtain ⟨k, v⟩ := q
    rw [List.pairwise_cons] at hm
    by_cases hk : k = h
    · simp only [insertOrUpdate, if_pos hk]
      exact List.pairwise_cons.mpr ⟨fun q' hq' => hm.1 q' hq', hm.2⟩
    · simp only [insertOrUpdate, if_neg hk]
      refine List.pairwise_cons.mpr ⟨?_, ih hm.2⟩
      intro q' hq'
      rcases mem_insertOrUpdate hq' with h1 | ⟨h1, -⟩
      · exact hm.1 q' h1
      · rw [h1]; exact hk

theorem lookupEntry_eq_some_mem {m : ResMap} {h : Int} {v : ResolutionOption}
    (hl : lookupEntry m h = some v) : (h, v) ∈ m := by
  induction m with
  | nil => simp [lookupEntry] at hl
  | cons p rest ih =>
    obtain ⟨k, w⟩ := p
    by_cases hk : k = h
    · rw [lookupEntry, if_pos hk] at hl
      injection hl with hl
      rw [← hk, ← hl]
      exact List.mem_cons_self _ _
    · rw [lookupEntry, if_neg hk] at hl
      exact List.mem_cons_of_mem _ (ih hl)

theorem eq_of_pairwiseKeys_mem {m : ResMap} (hm : m.Pairwise (fun p q => p.1 ≠ q.1))
    {h : Int} {a b : ResolutionOption} (ha : (h, a) ∈ m) (hb : (h, b) ∈ m) : a = b := by
  induction m with
  | nil => simp at ha
  | cons q rest ih =>
    rw [List.pairwise_cons] at hm
    rcases List.mem_cons.mp ha with ha' | ha' <;> rcases List.mem_cons.mp hb with hb' | hb'
    · rw [← hb'] at ha'
      exact congrArg Prod.snd ha'
    · exact absurd (congrArg Prod.fst ha'.symm) (hm.1 (h, b) hb')
    · exact absurd (congrArg Prod.fst hb'.symm) (hm.1 (h, a) ha')
    · exact ih hm.2 ha' hb'

theorem preferFilesize_height (all : List VideoFormat) (f : VideoFormat) (e : ResolutionOption) :
    (preferFilesize all f e).height = e.height := by
  unfold preferFilesize
  split <;> rfl

theorem preferFilesize_format_id (all : List VideoFormat) (f : VideoFormat)
    (e : ResolutionOption) :
    (preferFilesize all f e).format_id = e.format_id ∨
      (preferFilesize all f e).format_id = f.format_id := by
  unfold preferFilesize
  split
  · exact Or.inr rfl
  · exact Or.inl rfl

/-- The invariant carried through the accumulation loop: every stored value
records its own key as its height, and traces back to a non-skipped format of
the full list with that height and that `format_id`. -/
def EntryInv (all : List VideoFormat) (p : Int × ResolutionOption) : Prop :=
  p.2.height = p.1 ∧
    ∃ f, f ∈ all ∧ vcodecSkipped f = false ∧ f.height = some p.1 ∧
      f.format_id = p.2.format_id

theorem processFormat_cases (all : List VideoFormat) (m : ResMap) (f : VideoFormat) :
    processFormat all m f = m ∨
      ∃ h, f.height = some h ∧ vcodecSkipped f = false ∧
        processFormat all m f =
          insertOrUpdate m h ⟨h, resolutionLabel h, f.format_id⟩ (preferFilesize all f) := by
  unfold processFormat
  by_cases hsk : vcodecSkipped f
  · simp [hsk]
  · cases hfh : f.height with
    | none => simp [hsk, hfh]
    | some h =>
      refine Or.inr ⟨h, rfl, by simpa using hsk, ?_⟩
      simp [hsk]

theorem processFormat_entryInv {all : List VideoFormat} {m : ResMap} {f : VideoFormat}
    (hf : f ∈ all) (hinv : ∀ p ∈ m, EntryInv all p) :
    ∀ p ∈ processFormat all m f, EntryInv all p := by
  rcases processFormat_cases all m f with hc | ⟨h, hfh, hsk, hc⟩
  · rw [hc]; exact hinv
  · rw [hc]
    intro p hp
    rcases mem_insertOrUpdate hp with h1 | ⟨h1, h2⟩
    · exact hinv p h1
    · have hheight : ∀ e : ResolutionOption, e.height = h →
          (preferFilesize all f e).height = h := fun e he => by
        rw [preferFilesize_height, he]
      have hid : ∀ e : ResolutionOption, (∃ g, g ∈ all ∧ vcodecSkipped g = false ∧
          g.height = some h ∧ g.format_id = e.format_id) →
          ∃ g, g ∈ all ∧ vcodecSkipped g = false ∧ g.height = some h ∧
            g.format_id = (preferFilesize all f e).format_id := by
        intro e he
        rcases preferFilesize_format_id all f e with hw | hw
        · rw [hw]; exact he
        · rw [hw]; exact ⟨f, hf, hsk, hfh, rfl⟩
      rcases h2 with h2 | ⟨v, hv, h2⟩
      · constructor
        · rw [h1, h2]; exact hheight _ rfl
        · rw [h1, h2]
          exact hid _ ⟨f, hf, hsk, hfh, rfl⟩
      · have hvinv := hinv (h, v) hv
        constructor
        · rw [h1, h2]; exact hheight _ hvinv.1
        · rw [h1, h2]
          exact hid _ hvinv.2
    
theorem processFormat_pairwiseKeys {all : List VideoFormat} {m : ResMap} {f : VideoFormat}
    (hpw : m.Pairwise (fun p q => p.1 ≠ q.1)) :
    (processFormat all m f).Pairwise (fun p q => p.1 ≠ q.1) := by
  rcases processFormat_cases all m f with hc | ⟨h, -, -, hc⟩ <;> rw [hc]
  · exact hpw
  · exact pairwiseKeys_insertOrUpdate hpw _ _ _

theorem buildResolutions_inv (all : List VideoFormat) :
    ∀ (fs : List VideoFormat) (m : ResMap), (∀ f ∈ fs, f ∈ all) →
      (∀ p ∈ m, EntryInv all p) → m.Pairwise (fun p q => p.1 ≠ q.1) →
      (∀ p ∈ buildResolutions all fs m, EntryInv all p) ∧
        (buildResolutions all fs m).Pairwise (fun p q => p.1 ≠ q.1) := by
  intro fs
  induction fs with
  | nil => exact fun m _ hinv hpw => ⟨hinv, hpw⟩
  | cons f rest ih =>
    intro m hsub hinv hpw
    rw [buildResolutions]
    exact ih (processFormat all m f)
      (fun g hg => hsub g (List.mem_cons_of_mem _ hg))
      (processFormat_entryInv (hsub f (List.mem_cons_self _ _)) hinv)
      (processFormat_pairwiseKeys hpw)

theorem extract_perm_values (formats : List VideoFormat) :
    List.Perm (extract_available_resolutions formats)
      ((buildResolutions formats formats []).map Prod.snd) :=
  List.perm_insertionSort _ _

theorem extract_inv (formats : List VideoFormat) :
    (∀ p ∈ buildResolutions formats formats [], EntryInv formats p) ∧
      (buildResolutions formats formats []).Pairwise (fun p q => p.1 ≠ q.1) :=
  buildResolutions_inv formats formats [] (fun _ hf => hf)
    (fun p hp => absurd hp (List.not_mem_nil p)) List.Pairwise.nil

/-- Claim C1: for every list of `VideoFormat`, `extract_available_resolutions`
returns at most one `ResolutionOption` per distinct height (the heights of
the result are pairwise distinct) and the entries are sorted strictly by
descending height (every entry's height is strictly greater than every later
entry's height). -/
theorem extract_available_resolutions_nodup_sorted (formats : List VideoFormat) :
    ((extract_available_resolutions formats).map (fun o => o.height)).Nodup ∧
      (extract_available_resolutions formats).Pairwise (fun a b => b.height < a.height) := by
  obtain ⟨hin, hpw⟩ := extract_inv formats
  have hvals : ((buildResolutions formats formats []).map Prod.snd).Pairwise
      (fun a b => a.height ≠ b.height) := by
    rw [List.pairwise_map]
    refine hpw.imp_of_mem ?_
    intro p q hp hq hne he
    exact hne (by rw [← (hin p hp).1, ← (hin q hq).1, he])
  have hperm := extract_perm_values formats
  have hne : (extract_available_resolutions formats).Pairwise
      (fun a b => a.height ≠ b.height) :=
    (List.Perm.pairwise_iff (fun hab => hab.symm) hperm).mpr hvals
  have hsorted : (extract_available_resolutions formats).Pairwise
      (fun a b => b.height ≤ a.height) := by
    haveI : IsTotal ResolutionOption (fun a b => b.height ≤ a.height) :=
      ⟨fun a b => le_total b.height a.height⟩
    haveI : IsTrans ResolutionOption (fun a b => b.height ≤ a.height) :=
      ⟨fun _ _ _ hab hbc => le_trans hbc hab⟩
    exact List.sorted_insertionSort _ _
  constructor
  · exact List.pairwise_map.mpr hne
  · exact (hsorted.and hne).imp (fun h => lt_of_le_of_ne h.1 h.2.symm)

/-- Claim C9: a format whose `vcodec` is exactly `"none"` or missing (the
`map_or(true, ..)` default) contributes no `ResolutionOption`: every entry of
the result is traceable to a format whose `vcodec` is present and not
`"none"` and whose height matches, so skipped formats never give rise to an
entry. -/
theorem extract_skips_non_video_formats (formats : List VideoFormat) (o : ResolutionOption)
    (ho : o ∈ extract_available_resolutions formats) :
    ∃ f, f ∈ formats ∧ vcodecSkipped f = false ∧ f.height = some o.height := by
  have ho' : o ∈ (buildResolutions formats formats []).map Prod.snd :=
    (extract_perm_values formats).mem_iff.mp ho
  obtain ⟨p, hp, rfl⟩ := List.mem_map.mp ho'
  obtain ⟨hh, f, hf, hsk, hfh, -⟩ := (extract_inv formats).1 p hp
  exact ⟨f, hf, hsk, by rw [hh]; exact hfh⟩

/-- Claim C10: every `ResolutionOption` returned by
`extract_available_resolutions` carries the `format_id` of some input format
whose height equals the option's height and whose `vcodec` is present and not
`"none"` — the representative is always drawn from the video formats that
actually contribute that height. -/
theorem extract_format_id_attribution (formats : List VideoFormat) (o : ResolutionOption)
    (ho : o ∈ extract_available_resolutions formats) :
    ∃ f, f ∈ formats ∧ vcodecSkipped f = false ∧ f.height = some o.height ∧
      f.format_id = o.format_id := by
  have ho' : o ∈ (buildResolutions formats formats []).map Prod.snd :=
    (extract_perm_values formats).mem_iff.mp ho
  obtain ⟨p, hp, rfl⟩ := List.mem_map.mp ho'
  obtain ⟨hh, f, hf, hsk, hfh, hid⟩ := (extract_inv formats).1 p hp
  exact ⟨f, hf, hsk, by rw [hh]; exact hfh, hid⟩

theorem extract_skips_non_video_formats_witness :
    ∃ f, f ∈ [(⟨"f1", some 720, none, "mp4", none, some "avc1", none⟩ : VideoFormat)] ∧
      vcodecSkipped f = false ∧ f.height = some (720 : Int) :=
  extract_skips_non_video_formats _ ⟨720, "720p", "f1"⟩ (by decide)

theorem extract_format_id_attribution_witness :
    ∃ f, f ∈ [(⟨"g1", some 480, none, "webm", none, some "vp9", none⟩ : VideoFormat)] ∧
      vcodecSkipped f = false ∧ f.height = some (480 : Int) ∧ f.format_id = "g1" :=
  extract_format_id_attribution
    [⟨"g1", some 480, none, "webm", none, some "vp9", none⟩] ⟨480, "480p", "g1"⟩ (by decide)

theorem processFormat_eq_skip (all : List VideoFormat) (m : ResMap) (f : VideoFormat)
    (hsk : vcodecSkipped f = true) : processFormat all m f = m := by
  unfold processFormat
  simp [hsk]

theorem processFormat_eq_noheight (all : List VideoFormat) (m : ResMap) (f : VideoFormat)
    (hsk : vcodecSkipped f = false) (hfh : f.height = none) : processFormat all m f = m := by
  unfold processFormat
  simp [hsk, hfh]

theorem processFormat_eq_insert (all : List VideoFormat) (m : ResMap) (f : VideoFormat)
    (h' : Int) (hsk : vcodecSkipped f = false) (hfh : f.height = some h') :
    processFormat all m f =
      insertOrUpdate m h' ⟨h', resolutionLabel h', f.format_id⟩ (preferFilesize all f) := by
  unfold processFormat
  simp [hsk, hfh]

/-- Once the entry at height `h` carries the wanted `format_id` and every
remaining size-carrying format at `h` shares that id, the id survives to the
end of the loop. -/
theorem buildResolutions_keep_id (all : List VideoFormat) (idS : String) (h : Int) :
    ∀ (fs : List VideoFormat) (m : ResMap) (v : ResolutionOption),
      lookupEntry m h = some v → v.format_id = idS →
      (∀ g ∈ fs, g.height = some h → g.filesize.isSome = true → g.format_id = idS) →
      ∃ w, lookupEntry (buildResolutions all fs m) h = some w ∧ w.format_id = idS := by
  intro fs
  induction fs with
  | nil => exact fun m v hl hv _ => ⟨v, hl, hv⟩
  | cons f rest ih =>
    intro m v hl hv hprem
    rw [buildResolutions]
    have hrest := fun g hg => hprem g (List.mem_cons_of_mem _ hg)
    by_cases hsk : vcodecSkipped f = true
    · rw [processFormat_eq_skip all m f hsk]
      exact ih m v hl hv hrest
    · have hskf : vcodecSkipped f = false := by simpa using hsk
      cases hfh : f.height with
      | none =>
        rw [processFormat_eq_noheight all m f hskf hfh]
        exact ih m v hl hv hrest
      | some h' =>
        have hproc := processFormat_eq_insert all m f h' hskf hfh
        by_cases hh' : h' = h
        · subst hh'
          have hlook : lookupEntry (processFormat all m f) h' =
              some (preferFilesize all f v) := by
            rw [hproc, lookupEntry_insertOrUpdate_self, hl]
            rfl
          refine ih _ _ hlook ?_ hrest
          unfold preferFilesize
          split
          · rename_i hcond
            rw [Bool.and_eq_true] at hcond
            have hfs : f.filesize.isSome = true := hcond.1
            simpa using hprem f (List.mem_cons_self _ _) hfh hfs
          · exact hv
        · have hlook : lookupEntry (processFormat all m f) h = some v := by
            rw [hproc, lookupEntry_insertOrUpdate_ne _ _ _ _ _ (fun e => hh' e.symm)]
            exact hl
          exact ih _ _ hlook hv hrest

/-- As long as the wanted size-carrying format `S` is still to be processed,
the entry at its height either does not exist yet, or its current
`format_id` is witnessed by a sizeless format of the full list (so the
replacement condition of lines 398–401 is guaranteed to fire when `S`
arrives), or it already carries `S`'s id; in all cases the final entry ends
up with `S`'s `format_id`. -/
theorem buildResolutions_reach_id (all : List VideoFormat) (S : VideoFormat) (h : Int)
    (hgood : vcodecSkipped S = false) (hsh : S.height = some h)
    (hsf : S.filesize.isSome = true) :
    ∀ (fs : List VideoFormat) (m : ResMap),
      S ∈ fs → (∀ g ∈ fs, g ∈ all) →
      (∀ g ∈ fs, g.height = some h → g.filesize.isSome = true → g.format_id = S.format_id) →
      (lookupEntry m h = none ∨
        ∃ v, lookupEntry m h = some v ∧
          ((∃ f₀, f₀ ∈ all ∧ f₀.filesize = none ∧ f₀.format_id = v.format_id) ∨
            v.format_id = S.format_id)) →
      ∃ w, lookupEntry (buildResolutions all fs m) h = some w ∧
        w.format_id = S.format_id := by
  intro fs
  induction fs with
  | nil => exact fun m hS _ _ _ => absurd hS (List.not_mem_nil S)
  | cons f rest ih =>
    intro m hS hsub hprem hInv
    rw [buildResolutions]
    have hsubr := fun g hg => hsub g (List.mem_cons_of_mem _ hg)
    have hpremr := fun g hg => hprem g (List.mem_cons_of_mem _ hg)
    by_cases hsk : vcodecSkipped f = true
    · have hSrest : S ∈ rest := by
        rcases List.mem_cons.mp hS with rfl | hr
        · rw [hgood] at hsk
          exact absurd hsk Bool.false_ne_true
        · exact hr
      rw [processFormat_eq_skip all m f hsk]
      exact ih m hSrest hsubr hpremr hInv
    · have hskf : vcodecSkipped f = false := by simpa using hsk
      cases hfh : f.height with
      | none =>
        have hSrest : S ∈ rest := by
          rcases List.mem_cons.mp hS with rfl | hr
          · rw [hsh] at hfh
            exact absurd hfh (by simp)
          · exact hr
        rw [processFormat_eq_noheight all m f hskf hfh]
        exact ih m hSrest hsubr hpremr hInv
      | some h' =>
        have hproc := processFormat_eq_insert all m f h' hskf hfh
        by_cases hh' : h' = h
        · subst hh'
          by_cases hffs : f.filesize.isSome = true
          · -- a size-carrying good format at height h settles the id for good
            have hfid : f.format_id = S.format_id :=
              hprem f (List.mem_cons_self _ _) hfh hffs
            cases hl : lookupEntry m h' with
            | none =>
              have hlook : lookupEntry (processFormat all m f) h' =
                  some (preferFilesize all f ⟨h', resolutionLabel h', f.format_id⟩) := by
                rw [hproc, lookupEntry_insertOrUpdate_self, hl]
                rfl
              have hid : (preferFilesize all f
                  ⟨h', resolutionLabel h', f.format_id⟩).format_id = S.format_id := by
                rcases preferFilesize_format_id all f
                    ⟨h', resolutionLabel h', f.format_id⟩ with he | he <;> rw [he] <;>
                  exact hfid
              exact buildResolutions_keep_id all S.format_id h' rest _ _ hlook hid hpremr
            | some v =>
              rcases hInv with hnone | ⟨v', hv', hcase⟩
              · rw [hl] at hnone
                exact absurd hnone (by simp)
              · rw [hl] at hv'
                injection hv' with hv''
                subst hv''
                have hlook : lookupEntry (processFormat all m f) h' =
                    some (preferFilesize all f v) := by
                  rw [hproc, lookupEntry_insertOrUpdate_self, hl]
                  rfl
                have hid : (preferFilesize all f v).format_id = S.format_id := by
                  rcases hcase with ⟨f₀, hf₀all, hf₀none, hf₀id⟩ | hvS
                  · have hcond : (f.filesize.isSome && all.any
                        fun g => g.format_id == v.format_id && g.filesize.isNone) = true := by
                      rw [Bool.and_eq_true]
                      refine ⟨hffs, List.any_eq_true.mpr ⟨f₀, hf₀all, ?_⟩⟩
                      rw [Bool.and_eq_true]
                      refine ⟨beq_iff_eq.mpr hf₀id, ?_⟩
                      rw [hf₀none]
                      rfl
                    unfold preferFilesize
                    rw [if_pos hcond]
                    simpa using hfid
                  · rcases preferFilesize_format_id all f v with he | he <;> rw [he]
                    · exact hvS
                    · exact hfid
                exact buildResolutions_keep_id all S.format_id h' rest _ _ hlook hid hpremr
          · -- a sizeless format: the update is a no-op on ids, invariant kept
            have hfnone : f.filesize = none := by
              revert hffs
              cases f.filesize <;> simp
            have hSrest : S ∈ rest := by
              rcases List.mem_cons.mp hS with rfl | hr
              · exact absurd hsf hffs
              · exact hr
            have hpf : ∀ e, preferFilesize all f e = e := by
              intro e
              simp [preferFilesize, hfnone]
            cases hl : lookupEntry m h' with
            | none =>
              have hlook : lookupEntry (processFormat all m f) h' =
                  some (⟨h', resolutionLabel h', f.format_id⟩ : ResolutionOption) := by
                rw [hproc, lookupEntry_insertOrUpdate_self, hl]
                rw [Option.getD_none, hpf]
              apply ih _ hSrest hsubr hpremr
              exact Or.inr ⟨⟨h', resolutionLabel h', f.format_id⟩, hlook,
                Or.inl ⟨f, hsub f (List.mem_cons_self _ _), hfnone, rfl⟩⟩
            | some v =>
              have hlook : lookupEntry (processFormat all m f) h' = some v := by
                rw [hproc, lookupEntry_insertOrUpdate_self, hl]
                rw [Option.getD_some, hpf]
              apply ih _ hSrest hsubr hpremr
              rcases hInv with hnone | ⟨v', hv', hcase⟩
              · rw [hl] at hnone
                exact absurd hnone (by simp)
              · rw [hl] at hv'
                injection hv' with hv''
                subst hv''
                exact Or.inr ⟨v, hlook, hcase⟩
        · -- a different height leaves the entry at h untouched
          have hSrest : S ∈ rest := by
            rcases List.mem_cons.mp hS with rfl | hr
            · rw [hsh] at hfh
              injection hfh with e
              exact absurd e.symm hh'
            · exact hr
          have hlq : lookupEntry (processFormat all m f) h = lookupEntry m h := by
            rw [hproc]
            exact lookupEntry_insertOrUpdate_ne _ _ _ _ _ (fun e => hh' e.symm)
          apply ih _ hSrest hsubr hpremr
          rw [hlq]
          exact hInv

/-- Claim C2 (amended): when several formats share a height, exactly one of
them carries a known file size, and that size-carrying format is itself a
contributing video format (its `vcodec` is present and not `"none"`), then
the single `ResolutionOption` returned for that height carries its
`format_id`.  (The original claim, without the video-codec proviso on the
size carrier, is refuted by `extract_filesize_preference_counterexample`.) -/
theorem extract_filesize_representative (formats : List VideoFormat) (S : VideoFormat)
    (h : Int) (hmem : S ∈ formats) (hgood : vcodecSkipped S = false)
    (hsh : S.height = some h) (hsf : S.filesize.isSome = true)
    (huniq : ∀ g ∈ formats, g.height = some h → g.filesize.isSome = true →
      g.format_id = S.format_id) :
    (∃ o, o ∈ extract_available_resolutions formats ∧ o.height = h ∧
        o.format_id = S.format_id) ∧
      ∀ o ∈ extract_available_resolutions formats, o.height = h →
        o.format_id = S.format_id := by
  obtain ⟨w, hw, hwid⟩ := buildResolutions_reach_id formats S h hgood hsh hsf formats []
    hmem (fun _ hg => hg) huniq (Or.inl rfl)
  have hwmem : (h, w) ∈ buildResolutions formats formats [] := lookupEntry_eq_some_mem hw
  obtain ⟨hin, hpw⟩ := extract_inv formats
  have hperm := extract_perm_values formats
  have hwh : w.height = h := (hin (h, w) hwmem).1
  constructor
  · exact ⟨w, hperm.mem_iff.mpr (List.mem_map.mpr ⟨(h, w), hwmem, rfl⟩), hwh, hwid⟩
  · intro o ho hoh
    obtain ⟨p, hp, rfl⟩ := List.mem_map.mp (hperm.mem_iff.mp ho)
    have hph : p.1 = h := by
      rw [← (hin p hp).1, hoh]
    have hpmem : (h, p.2) ∈ buildResolutions formats formats [] := by
      rw [← hph]
      exact hp
    rw [eq_of_pairwiseKeys_mem hpw hpmem hwmem]
    exact hwid

/-- Claim C2, counterexample to the original statement: two formats share
height 1080 and only `"b"` has a known file size, but `"b"` is an audio-only
format (`vcodec == "none"`), so it is skipped and the representative for
1080 is `"a"`, not the size carrier `"b"`. -/
theorem extract_filesize_preference_counterexample :
    extract_available_resolutions
        [⟨"a", some 1080, none, "mp4", none, some "avc1", none⟩,
         ⟨"b", some 1080, none, "mp4", some 1000, some "none", none⟩] =
      [⟨1080, "1080p", "a"⟩] ∧ ("a" : String) ≠ "b" :=
  ⟨by decide, by decide⟩

theorem extract_filesize_representative_witness :
    ∃ o, o ∈ extract_available_resolutions
        [⟨"a", some 1080, none, "mp4", none, some "avc1", none⟩,
         ⟨"b", some 1080, none, "mp4", some 1000, some "avc1", none⟩] ∧
      o.height = (1080 : Int) ∧ o.format_id = "b" :=
  (extract_filesize_representative
    [⟨"a", some 1080, none, "mp4", none, some "avc1", none⟩,
     ⟨"b", some 1080, none, "mp4", some 1000, some "avc1", none⟩]
    ⟨"b", some 1080, none, "mp4", some 1000, some "avc1", none⟩ 1080
    (by decide) (by decide) (by decide) (by decide) (by decide)).1

/-- Claim C3 (amended): `format_ytdlp_error` returns a fixed failure banner
(`"yt-dlp 执行失败: "`) followed by the original diagnostic text, with the
remediation block of the first matching known condition appended (checked in
the fixed priority order bot-detection, 429/Too Many Requests,
cookies/login, impersonate-target-unavailable, `ERROR: [youtube]`); when no
condition matches, the suffix is empty — so the result is the prefixed text,
not the raw text unchanged.  (The original claim's "returns the raw
diagnostic unchanged" is refuted by `format_ytdlp_error_counterexample`.) -/
theorem format_ytdlp_error_shape (stderr : String) :
    format_ytdlp_error stderr =
      "yt-dlp 执行失败: " ++ stderr ++ remediationSuffix stderr := by
  unfold format_ytdlp_error remediationSuffix
  split_ifs <;> simp [String.append_assoc]

/-- Claim C3, counterexample to the original statement: on a diagnostic that
matches no known condition the function does not return the text unchanged —
it prepends the failure banner. -/
theorem format_ytdlp_error_counterexample : format_ytdlp_error "hello" ≠ "hello" := by
  decide

/-! ## Claim C4: line selection of `get_video_info` -/

theorem firstJson_append_none (parseJson : String → Option Json) (pre xs : List String)
    (hpre : ∀ l ∈ pre, parseJson l = none) :
    firstJson parseJson (pre ++ xs) = firstJson parseJson xs := by
  induction pre with
  | nil => rfl
  | cons a t ih =>
    rw [List.cons_append, firstJson, hpre a (List.mem_cons_self _ _)]
    exact ih (fun l hl => hpre l (List.mem_cons_of_mem _ hl))

theorem firstJson_eq_none (parseJson : String → Option Json) :
    ∀ lines : List String, (∀ l ∈ lines, parseJson l = none) →
      firstJson parseJson lines = none := by
  intro lines
  induction lines with
  | nil => intro _; rfl
  | cons a t ih =>
    intro hall
    rw [firstJson, hall a (List.mem_cons_self _ _)]
    exact ih (fun l hl => hall l (List.mem_cons_of_mem _ hl))

/-- Claim C4: `get_video_info` (from the point where stdout has been
captured and split into lines) returns the metadata parsed from the first
line that parses as valid JSON, and fails with a parse error both when the
output has no lines and when no line parses. -/
theorem get_video_info_core_first_json (parseJson : String → Option Json)
    (lines : List String) :
    (lines = [] →
        get_video_info_core parseJson lines =
          some (Except.error "无法获取视频信息: 无响应数据")) ∧
      (∀ (pre : List String) (l : String) (rest : List String) (j : Json),
        lines = pre ++ l :: rest → (∀ l' ∈ pre, parseJson l' = none) →
        parseJson l = some j →
        get_video_info_core parseJson lines = parse_video_info j) ∧
      ((∀ l ∈ lines, parseJson l = none) → lines ≠ [] →
        get_video_info_core parseJson lines =
          some (Except.error "无法解析视频信息")) := by
  refine ⟨?_, ?_, ?_⟩
  · intro h
    rw [h]
    rfl
  · intro pre l rest j hlines hpre hl
    have hne : lines ≠ [] := by
      rw [hlines]
      simp
    unfold get_video_info_core
    rw [if_neg hne, hlines, firstJson_append_none parseJson pre _ hpre, firstJson, hl]
  · intro hall hne
    unfold get_video_info_core
    rw [if_neg hne, firstJson_eq_none parseJson lines hall]

theorem get_video_info_core_first_json_witness :
    get_video_info_core (fun _ => none) ["x"] =
      some (Except.error "无法解析视频信息") :=
  (get_video_info_core_first_json (fun _ => none) ["x"]).2.2 (fun _ _ => rfl) (by simp)

/-! ## Claim C5: graceful degradation of `parse_video_info` -/

/-- Claim C5 (amended): whenever `parse_formats` does not hit the panicking
single-`format` map indexing (that failure case is exhibited by
`parse_video_info_default_counterexample`), `parse_video_info` succeeds, and
each missing field falls back to its fixed default: `"unknown"` for `id`,
`"无标题"` for `title`, `0` for `duration` and `""` for `thumbnail` at the
top level; and in the formats-array branch — where `formats` is exactly the
per-entry parse of the array — `"unknown"` for a missing per-format
`format_id` or `ext`, while a missing `height`, `width`, `filesize`,
`vcodec` or `acodec` stays absent.  The defaults are fixed placeholders, not
uniformly empty strings (the original "empty for strings" is refuted by
`parse_video_info_default_counterexample`). -/
theorem parse_video_info_defaults (json : Json) (formats : List VideoFormat)
    (hf : parse_formats json = some formats) :
    (∃ v, parse_video_info json = some (Except.ok v) ∧ v.formats = formats ∧
      ((json.getKey "id").asStr = none → v.id = "unknown") ∧
      ((json.getKey "title").asStr = none → v.title = "无标题") ∧
      ((json.getKey "duration").asF64 = none → v.duration = 0) ∧
      ((json.getKey "thumbnail").asStr = none → v.thumbnail = "")) ∧
      (∀ arr : List Json, (json.getKey "formats").asArr = some arr →
        formats = arr.map parseFormatEntry) ∧
      ∀ x : Json,
        (((x.getKey "format_id").asStr = none → (parseFormatEntry x).format_id = "unknown") ∧
          ((x.getKey "ext").asStr = none → (parseFormatEntry x).ext = "unknown")) ∧
        (((x.getKey "height").asI64 = none → (parseFormatEntry x).height = none) ∧
          ((x.getKey "width").asI64 = none → (parseFormatEntry x).width = none) ∧
          ((x.getKey "filesize").asI64 = none → (parseFormatEntry x).filesize = none) ∧
          ((x.getKey "vcodec").asStr = none → (parseFormatEntry x).vcodec = none) ∧
          ((x.getKey "acodec").asStr = none → (parseFormatEntry x).acodec = none)) := by
  refine ⟨?_, ?_, ?_⟩
  · unfold parse_video_info
    rw [hf]
    exact ⟨_, rfl, rfl, fun h => by simp [h], fun h => by simp [h], fun h => by simp [h],
      fun h => by simp [h]⟩
  · intro arr hArr
    unfold parse_formats at hf
    rw [hArr] at hf
    exact (Option.some.inj hf).symm
  · intro x
    exact ⟨⟨fun h => by simp [parseFormatEntry, h], fun h => by simp [parseFormatEntry, h]⟩,
      fun h => by simp [parseFormatEntry, h], fun h => by simp [parseFormatEntry, h],
      fun h => by simp [parseFormatEntry, h], fun h => by simp [parseFormatEntry, h],
      fun h => by simp [parseFormatEntry, h]⟩

theorem parse_video_info_defaults_witness :
    ∃ v, parse_video_info (Json.obj []) = some (Except.ok v) ∧
      v.id = "unknown" ∧ v.title = "无标题" ∧
      (parseFormatEntry (Json.obj [])).format_id = "unknown" ∧
      (parseFormatEntry (Json.obj [])).filesize = none := by
  obtain ⟨⟨v, hv, -, hid, htitle, -, -⟩, -, hfmt⟩ :=
    parse_video_info_defaults (Json.obj []) [] rfl
  exact ⟨v, hv, hid rfl, htitle rfl, (hfmt (Json.obj [])).1.1 rfl,
    (hfmt (Json.obj [])).2.2.2.1 rfl⟩

/-- Claim C5, counterexample to the original statement, in both directions it
fails: (a) on a record with no fields, parsing succeeds but the missing `id`
becomes `"unknown"` and the missing `title` becomes `"无标题"` — not the
empty string the claim promises for missing string fields; (b) on a record
whose single `format` object lacks the `format_id`/`ext`/`filesize` keys,
the operation does not succeed at all: the `serde_json::Map` indexing of the
single-`format` branch panics (modelled as `none`), refuting "never fails
the whole operation". -/
theorem parse_video_info_default_counterexample :
    (parse_video_info (Json.obj []) =
        some (Except.ok ⟨"unknown", "无标题", 0, "", [], []⟩) ∧
      ("unknown" : String) ≠ "") ∧
      parse_video_info (Json.obj [("format", Json.obj [])]) = none :=
  ⟨⟨rfl, by decide⟩, rfl⟩

/-! ## Claims C6–C8: the progress-line scanner -/

theorem parse_progress_line_fields {line : String} {snap : ProgressSnapshot}
    (hp : parse_progress_line line = some snap) :
    findPercent (splitWhitespace line) = some snap.percent ∧
      snap.speed = findSpeed (splitWhitespace line) ∧
      snap.eta = findEta (splitWhitespace line) := by
  simp only [parse_progress_line] at hp
  revert hp
  split
  · intro hp
    cases hp
  · intro hp
    cases hfp : findPercent (splitWhitespace line) with
    | none =>
      rw [hfp] at hp
      cases hp
    | some q =>
      rw [hfp] at hp
      obtain rfl := Option.some.inj hp
      exact ⟨rfl, rfl, rfl⟩

theorem findSpeed_append_clean (pre l : List String)
    (hpre : ∀ p ∈ pre, p ≠ "at" ∧ containsUnit p = false) :
    findSpeed (pre ++ l) = findSpeed l := by
  induction pre with
  | nil => rfl
  | cons a t ih =>
    have ha := hpre a (List.mem_cons_self _ _)
    rw [List.cons_append, findSpeed, if_neg (fun hc => ha.1 hc.1)]
    rw [if_neg (by rw [ha.2]; exact Bool.false_ne_true)]
    exact ih (fun p hp => hpre p (List.mem_cons_of_mem _ hp))

theorem findSpeed_at (next : String) (rest : List String) :
    findSpeed ("at" :: next :: rest) = speedAfterAt (next :: rest) := by
  rw [findSpeed, if_pos ⟨rfl, by simp⟩]

theorem findSpeed_unit (u : String) (rest : List String) (hu : containsUnit u = true) :
    findSpeed (u :: rest) = u := by
  have hne : u ≠ "at" := by
    intro e
    rw [e] at hu
    exact absurd hu (by decide)
  rw [findSpeed, if_neg (fun hc => hne hc.1), if_pos hu]

/-- Claim C6 (amended): the speed scan is a single left-to-right pass in
which the first trigger wins — a trigger being either an `"at"` token with a
successor (taking the following token, concatenated with the one after it
when that contains `"/s"`) or a token containing a known throughput unit
(taking that token itself).  In particular the `"at"` rule only governs the
result when no unit-bearing token occurs earlier in the line; a unit token
to the left of `"at"` wins (refuting the original claim's unconditional
"at"-first priority, see `parse_progress_speed_counterexample`). -/
theorem parse_progress_speed_leftmost (line : String) (snap : ProgressSnapshot)
    (hp : parse_progress_line line = some snap) :
    (∀ (pre : List String) (next : String) (rest : List String),
        splitWhitespace line = pre ++ "at" :: next :: rest →
        (∀ p ∈ pre, p ≠ "at" ∧ containsUnit p = false) →
        snap.speed = speedAfterAt (next :: rest)) ∧
      (∀ (pre : List String) (u : String) (rest : List String),
        splitWhitespace line = pre ++ u :: rest → containsUnit u = true →
        (∀ p ∈ pre, p ≠ "at" ∧ containsUnit p = false) →
        snap.speed = u) := by
  obtain ⟨-, hs, -⟩ := parse_progress_line_fields hp
  constructor
  · intro pre next rest hsplit hclean
    rw [hs, hsplit, findSpeed_append_clean pre _ hclean, findSpeed_at]
  · intro pre u rest hsplit hu hclean
    rw [hs, hsplit, findSpeed_append_clean pre _ hclean, findSpeed_unit u rest hu]

/-- Claim C6, counterexample to the original statement: the line has an
`"at"` token followed by `"7MiB/s"`, so by the claim the speed should be
`"7MiB/s"`; the code returns `"3MiB/s"`, the unit-bearing token that occurs
earlier in the scan. -/
theorem parse_progress_speed_counterexample :
    parse_progress_line "10% 3MiB/s at 7MiB/s" = some ⟨10, "3MiB/s", ""⟩ ∧
      ("3MiB/s" : String) ≠ "7MiB/s" :=
  ⟨by decide, by decide⟩

theorem parse_progress_speed_leftmost_witness :
    (⟨50, "3MiB/s", ""⟩ : ProgressSnapshot).speed = speedAfterAt ["3MiB/s"] :=
  (parse_progress_speed_leftmost "[download] 50% at 3MiB/s" ⟨50, "3MiB/s", ""⟩
      (by decide)).1 ["[download]", "50%"] "3MiB/s" [] (by decide) (by decide)

/-- Claim C7: no snapshot without a percent — a line with neither the
`"[download]"` marker nor a `'%'` yields no snapshot; more generally a line
whose tokens yield no extractable percent yields no snapshot, and any
emitted snapshot's percent comes from the percent scan. -/
theorem parse_progress_line_requires_percent (line : String) :
    (strContains line "[download]" = false → strContains line "%" = false →
        parse_progress_line line = none) ∧
      (findPercent (splitWhitespace line) = none → parse_progress_line line = none) ∧
      (∀ snap, parse_progress_line line = some snap →
        findPercent (splitWhitespace line) = some snap.percent) := by
  refine ⟨?_, ?_, ?_⟩
  · intro h1 h2
    simp [parse_progress_line, h1, h2]
  · intro h
    simp [parse_progress_line, h]
  · intro snap hp
    exact (parse_progress_line_fields hp).1

theorem parse_progress_line_requires_percent_witness :
    parse_progress_line "hello world" = none :=
  (parse_progress_line_requires_percent "hello world").1 (by decide) (by decide)

/-- Claim C8: the documented example line parses to percent `42.0`, speed
`"5.82MiB/s"` and eta `"00:12"`. -/
theorem parse_progress_line_example :
    parse_progress_line "[download]  42.0% of 125.89MiB at  5.82MiB/s ETA 00:12" =
      some ⟨42, "5.82MiB/s", "00:12"⟩ := by
  decide
